import Mathlib

/-!
# Formal verification of the flare_test measurement pipeline

Shallow embedding, in Lean 4, of the parts of the repository that the
frozen claims talk about:

* `src/unpack_mipi_raw10.py` — the MIPI RAW10 decoder (`unpack_mipi_raw10`);
* `src/flare_automation/analysis/roi.py` — the ROI model, its persistence
  (`load_roi_set` / `save_roi_set`) and the RAW16 frame loader
  (`load_raw16_image`);
* `src/flare_automation/analysis/photo_response.py` — the measurement engine
  (`_roi_mean`, `_measure_capture`, `_nd_normalisation_factor`) and the
  fitting engine (`analyze_photo_response`, `_linear_fit`).

Machine integers of the source are modelled as `Nat`/`Int`; Python floats are
modelled as exact rationals `ℚ`; code that raises exceptions is modelled with
`Except String` (the string is the error message); NumPy arrays are modelled
as (rectangular) `List`s.
-/

namespace FlareTest

/-! ## NumPy-style list reshaping

`chunks n l` splits `l` into consecutive runs of `n` elements (the last run
may be shorter).  It models a NumPy `reshape((m, n))` row view (for buffers of
exact size `m*n`) and, more generally, the row-major grouping used by the
decoder's stride handling. -/

/-- Structural worker for `chunks`: the first argument is fuel, always called
with at least the length of the list. -/
def chunksF (n : Nat) : Nat → List α → List (List α)
  | _, [] => []
  | 0, _ :: _ => []
  | fuel+1, x :: xs => ((x :: xs).take n) :: chunksF n fuel ((x :: xs).drop n)

def chunks (n : Nat) (l : List α) : List (List α) := chunksF n l.length l

@[simp] theorem chunks_nil (n : Nat) : chunks n ([] : List α) = [] := rfl

theorem chunksF_congr (n : Nat) (hn : n ≠ 0) :
    ∀ (fuel₁ fuel₂ : Nat) (l : List α), l.length ≤ fuel₁ → l.length ≤ fuel₂ →
      chunksF n fuel₁ l = chunksF n fuel₂ l := by
  intro fuel₁
  induction fuel₁ with
  | zero =>
    intro fuel₂ l h₁ _
    have : l = [] := List.eq_nil_of_length_eq_zero (by omega)
    subst this
    cases fuel₂ <;> rfl
  | succ f ih =>
    intro fuel₂ l h₁ h₂
    match l with
    | [] => cases fuel₂ <;> rfl
    | x :: xs =>
      match fuel₂ with
      | 0 => simp at h₂
      | g + 1 =>
        simp only [chunksF]
        congr 1
        apply ih
        · simp at h₁ ⊢; omega
        · simp at h₂ ⊢; omega

theorem chunks_eq_cons (n : Nat) (hn : n ≠ 0) (l : List α) (hl : l ≠ []) :
    chunks n l = l.take n :: chunks n (l.drop n) := by
  match l, hl with
  | x :: xs, _ =>
    show chunksF n (xs.length + 1) (x :: xs) = _
    simp only [chunksF]
    congr 1
    apply chunksF_congr n hn
    · simp [List.length_drop]; omega
    · simp

/-- Shape of `chunks` on a buffer of exact size `m * n`: `m` full rows of `n`
elements whose concatenation is the original buffer. -/
theorem chunks_full (n : Nat) (hn : n ≠ 0) :
    ∀ (m : Nat) (l : List α), l.length = m * n →
      (chunks n l).length = m ∧ (∀ c ∈ chunks n l, c.length = n) ∧
        (chunks n l).flatten = l := by
  intro m
  induction m with
  | zero =>
    intro l hl
    have : l = [] := List.eq_nil_of_length_eq_zero (by simpa using hl)
    subst this; simp
  | succ k ih =>
    intro l hl
    have hne : l ≠ [] := by
      intro h; subst h; simp at hl; omega
    have hlen : n ≤ l.length := by
      rw [hl]; calc n = 1 * n := by omega
        _ ≤ (k+1) * n := by exact Nat.mul_le_mul_right n (by omega)
    rw [chunks_eq_cons n hn l hne]
    have hmul : (k + 1) * n = k * n + n := by ring
    have hdrop : (l.drop n).length = k * n := by
      simp [List.length_drop, hl]; omega
    obtain ⟨h1, h2, h3⟩ := ih (l.drop n) hdrop
    refine ⟨by simp [h1], ?_, ?_⟩
    · intro c hc
      rw [List.mem_cons] at hc
      rcases hc with rfl | hc
      · simp [List.length_take]; omega
      · exact h2 c hc
    · simp [h3]

/-- `chunks` distributes over an append whose first part has length a multiple
of the chunk size. -/
theorem chunks_append (n : Nat) (hn : n ≠ 0) :
    ∀ (m : Nat) (l₁ l₂ : List α), l₁.length = m * n →
      chunks n (l₁ ++ l₂) = chunks n l₁ ++ chunks n l₂ := by
  intro m
  induction m with
  | zero =>
    intro l₁ l₂ h
    have : l₁ = [] := List.eq_nil_of_length_eq_zero (by simpa using h)
    subst this; simp
  | succ k ih =>
    intro l₁ l₂ h
    have hne : l₁ ≠ [] := by
      intro hh; subst hh; simp at h; omega
    have hlen : n ≤ l₁.length := by
      rw [h]; calc n = 1 * n := by omega
        _ ≤ (k+1) * n := by exact Nat.mul_le_mul_right n (by omega)
    by_cases h2 : l₁ ++ l₂ = []
    · rcases List.append_eq_nil.mp h2 with ⟨ha, hb⟩; exact absurd ha hne
    · rw [chunks_eq_cons n hn _ h2, chunks_eq_cons n hn _ hne]
      rw [List.take_append_of_le_length hlen, List.drop_append_of_le_length hlen]
      have hmul : (k + 1) * n = k * n + n := by ring
      have hdrop : (l₁.drop n).length = k * n := by
        simp [List.length_drop, h]; omega
      rw [ih (l₁.drop n) l₂ hdrop]
      simp

/-- Re-chunking the concatenation of rows of exact width `n` recovers the rows. -/
theorem chunks_flatten (n : Nat) (hn : n ≠ 0) (L : List (List α))
    (h : ∀ c ∈ L, c.length = n) : chunks n L.flatten = L := by
  induction L with
  | nil => simp
  | cons c L ih =>
    have hc : c.length = n := h c (by simp)
    have hcn : c ≠ [] := by
      intro hh; subst hh; simp at hc; omega
    rw [List.flatten_cons, chunks_append n hn 1 c L.flatten (by simpa using hc)]
    rw [ih (fun d hd => h d (by simp [hd]))]
    rw [chunks_eq_cons n hn c hcn]
    simp [List.take_of_length_le (le_of_eq hc), List.drop_eq_nil_of_le (le_of_eq hc)]

theorem flatten_length_const (L : List (List α)) (k : Nat)
    (h : ∀ c ∈ L, c.length = k) : L.flatten.length = L.length * k := by
  induction L with
  | nil => simp
  | cons c L ih =>
    simp only [List.flatten_cons, List.length_append, List.length_cons]
    rw [h c (by simp), ih (fun d hd => h d (by simp [hd]))]
    ring

/-! ## The MIPI RAW10 decoder (`src/unpack_mipi_raw10.py`)

`unpack_mipi_raw10(input_raw, width, stride, height, header, verbose)` unpacks
a packed 10-bit buffer.  The NumPy vectorised arithmetic

    raw1 = raw[::5] * 4 + (low_bits & 3)
    raw2 = raw[1::5] * 4 + ((low_bits >> 2) & 3)
    raw3 = raw[2::5] * 4 + ((low_bits >> 4) & 3)
    raw4 = raw[3::5] * 4 + ((low_bits >> 6) & 3)

followed by the interleaving scatter `upack_raw[i::4] = raw_{i+1}` is, for a
buffer whose length is a multiple of 5, exactly the per-5-byte-group function
`unpackGroup` applied groupwise.  When the length is *not* a multiple of 5
(length `5q + r`, `1 ≤ r ≤ 4`), the scatter target `upack_raw[(r-1)::4]` has
`q` slots while `raw_r` has `q + 1` elements, so NumPy raises a `ValueError`
(shape-mismatch broadcast); `unpackFlat` models that failure.  The `verbose`
parameter is unused by the source and is omitted. -/

/-- `np.where(v > 1023, 1023, v)` applied elementwise. -/
def clamp1023 (v : Nat) : Nat := if 1023 < v then 1023 else v

/-- Decode one group of 5 packed bytes `[b0, b1, b2, b3, low]` into 4 pixels. -/
def unpackGroup : List Nat → List Nat
  | [b0, b1, b2, b3, lo] =>
    [clamp1023 (b0 * 4 + (lo &&& 3)),
     clamp1023 (b1 * 4 + ((lo >>> 2) &&& 3)),
     clamp1023 (b2 * 4 + ((lo >>> 4) &&& 3)),
     clamp1023 (b3 * 4 + ((lo >>> 6) &&& 3))]
  | _ => []

/-- The strided gather/scatter decode of a flat byte buffer.  Succeeds exactly
when the buffer length is a multiple of 5 (see the module comment above). -/
def unpackFlat (flat : List Nat) : Except String (List Nat) :=
  if flat.length % 5 = 0 then .ok ((chunks 5 flat).flatMap unpackGroup)
  else .error "could not broadcast input array"

/-- The body of the `try:` block of `unpack_mipi_raw10`: every `raise` and
every NumPy `ValueError` becomes an `Except.error`.  Comparisons written with
float division in the source (`raw.size*4/5 < width*height`,
`stride*4/5 < width`) are modelled by the equivalent exact integer
comparisons; `int(width*height*5/4)` is `Nat` floor division.  In the
no-stride branch `temp_width = width*5/4` satisfies `temp_width*4/5 == width`
exactly (the involved floats are exact), so the trim branch is never taken
there.  A NumPy `reshape` of a zero-sized array to a zero-sized shape is
represented by the empty list of rows. -/
def unpackBody (input_raw : List Nat) (width stride height header : Nat) :
    Except String (List (List Nat)) :=
  let raw := input_raw.drop header
  if stride = 0 then
    if raw.length * 4 < width * height * 5 then
      .error "file size does not match width * height"
    else
      match unpackFlat (raw.take (width * height * 5 / 4)) with
      | .error e => .error e
      | .ok up =>
        if up.length = height * width then .ok (chunks width up)
        else .error "cannot reshape array"
  else
    if raw.length < stride * height then
      .error "MIPI RAW10 file size should be multiple of stride"
    else if stride * 4 < width * 5 then
      .error "stride and width setting do not match"
    else
      let tw := stride / 5 * 5
      let flat := ((chunks stride (raw.take (stride * height))).map
        (fun row => row.take tw)).flatten
      match unpackFlat flat with
      | .error e => .error e
      | .ok up =>
        let uw := tw * 4 / 5
        let trimmed : Except String (List Nat) :=
          if uw = width then .ok up
          else if up.length = height * uw then
            .ok (((chunks uw up).map (fun row => row.take width)).flatten)
          else .error "cannot reshape array"
        match trimmed with
        | .error e => .error e
        | .ok up2 =>
          if up2.length = height * width then .ok (chunks width up2)
          else .error "cannot reshape array"

/-- `unpack_mipi_raw10` proper: `ret` starts as `-1`; the `except OSError` /
`except ValueError` handlers print and leave `ret = -1`, so every failure of
the body yields the integer sentinel and every success yields the grid. -/
def unpack_mipi_raw10 (input_raw : List Nat) (width stride height header : Nat) :
    Sum Int (List (List Nat)) :=
  match unpackBody input_raw width stride height header with
  | .error _ => .inl (-1)
  | .ok g => .inr g

/-! ## Claim C4: the 5-byte → 4-pixel reconstruction -/

theorem lor_low2 (b r : Nat) (hr : r < 4) : (b <<< 2) ||| r = b * 4 + r := by
  calc (b <<< 2) ||| r = 2 ^ 2 * b ||| r := by rw [Nat.shiftLeft_eq, Nat.mul_comm]
    _ = 2 ^ 2 * b + r := (Nat.mul_add_lt_is_or hr b).symm
    _ = b * 4 + r := by ring

theorem low2_lt (lo k : Nat) : (lo >>> k) &&& 3 < 4 :=
  Nat.lt_succ_of_le Nat.and_le_right

theorem clamp1023_of_le {v : Nat} (h : v ≤ 1023) : clamp1023 v = v := by
  simp [clamp1023]; omega

/-- The three per-group facts of claim C4, for one run of 5 bytes. -/
theorem unpackGroup_spec (b0 b1 b2 b3 lo : Nat)
    (h0 : b0 < 256) (h1 : b1 < 256) (h2 : b2 < 256) (h3 : b3 < 256) :
    unpackGroup [b0, b1, b2, b3, lo] =
      [(b0 <<< 2) ||| ((lo >>> (2*0)) &&& 3),
       (b1 <<< 2) ||| ((lo >>> (2*1)) &&& 3),
       (b2 <<< 2) ||| ((lo >>> (2*2)) &&& 3),
       (b3 <<< 2) ||| ((lo >>> (2*3)) &&& 3)] ∧
    (∀ p ∈ unpackGroup [b0, b1, b2, b3, lo], p ≤ 1023) ∧
    (((lo >>> (2*0)) &&& 3 = 0 → (unpackGroup [b0, b1, b2, b3, lo]).getD 0 0 >>> 2 = b0) ∧
     ((lo >>> (2*1)) &&& 3 = 0 → (unpackGroup [b0, b1, b2, b3, lo]).getD 1 0 >>> 2 = b1) ∧
     ((lo >>> (2*2)) &&& 3 = 0 → (unpackGroup [b0, b1, b2, b3, lo]).getD 2 0 >>> 2 = b2) ∧
     ((lo >>> (2*3)) &&& 3 = 0 → (unpackGroup [b0, b1, b2, b3, lo]).getD 3 0 >>> 2 = b3)) := by
  simp only [show 2*0 = 0 from rfl, show 2*1 = 2 from rfl, show 2*2 = 4 from rfl,
    show 2*3 = 6 from rfl, Nat.shiftRight_zero]
  have r0 : lo &&& 3 < 4 := Nat.lt_succ_of_le Nat.and_le_right
  have r1 := low2_lt lo 2
  have r2 := low2_lt lo 4
  have r3 := low2_lt lo 6
  have hg : unpackGroup [b0, b1, b2, b3, lo] =
      [b0 * 4 + (lo &&& 3), b1 * 4 + ((lo >>> 2) &&& 3),
       b2 * 4 + ((lo >>> 4) &&& 3), b3 * 4 + ((lo >>> 6) &&& 3)] := by
    simp only [unpackGroup]
    rw [clamp1023_of_le (by omega), clamp1023_of_le (by omega),
        clamp1023_of_le (by omega), clamp1023_of_le (by omega)]
  refine ⟨?_, ?_, ?_, ?_, ?_, ?_⟩
  · rw [hg, lor_low2 _ _ r0, lor_low2 _ _ r1, lor_low2 _ _ r2, lor_low2 _ _ r3]
  · intro p hp
    rw [hg] at hp
    simp only [List.mem_cons, List.not_mem_nil, or_false] at hp
    rcases hp with rfl | rfl | rfl | rfl <;> omega
  · intro hz; rw [hg]
    simp only [List.getD_cons_zero, List.getD_cons_succ, hz, Nat.add_zero]
    simp only [Nat.shiftRight_eq_div_pow]
    omega
  · intro hz; rw [hg]
    simp only [List.getD_cons_zero, List.getD_cons_succ, hz, Nat.add_zero]
    simp only [Nat.shiftRight_eq_div_pow]
    omega
  · intro hz; rw [hg]
    simp only [List.getD_cons_zero, List.getD_cons_succ, hz, Nat.add_zero]
    simp only [Nat.shiftRight_eq_div_pow]
    omega
  · intro hz; rw [hg]
    simp only [List.getD_cons_zero, List.getD_cons_succ, hz, Nat.add_zero]
    simp only [Nat.shiftRight_eq_div_pow]
    omega

/-- **C4** (confirmed).  For every packed buffer the decoder accepts (length a
multiple of 5, byte-valued entries), the decode succeeds groupwise, and each
run of 5 consecutive packed bytes yields 4 pixels reconstructed as
`pixel_i = (byte_i <<< 2) ||| ((byte4 >>> (2*i)) &&& 0b11)`; every
reconstructed sample lies in `[0, 1023]`, and when the 2 low bits taken from
byte 4 are zero the top 8 bits of the reconstructed value equal the
corresponding input byte. -/
theorem claim_C4 (flat : List Nat) (m : Nat)
    (hlen : flat.length = m * 5) (hb : ∀ b ∈ flat, b < 256) :
    unpackFlat flat = .ok ((chunks 5 flat).flatMap unpackGroup) ∧
    (∀ b0 b1 b2 b3 lo, [b0, b1, b2, b3, lo] ∈ chunks 5 flat →
      unpackGroup [b0, b1, b2, b3, lo] =
        [(b0 <<< 2) ||| ((lo >>> (2*0)) &&& 3),
         (b1 <<< 2) ||| ((lo >>> (2*1)) &&& 3),
         (b2 <<< 2) ||| ((lo >>> (2*2)) &&& 3),
         (b3 <<< 2) ||| ((lo >>> (2*3)) &&& 3)] ∧
      (∀ p ∈ unpackGroup [b0, b1, b2, b3, lo], p ≤ 1023) ∧
      (((lo >>> (2*0)) &&& 3 = 0 → (unpackGroup [b0, b1, b2, b3, lo]).getD 0 0 >>> 2 = b0) ∧
       ((lo >>> (2*1)) &&& 3 = 0 → (unpackGroup [b0, b1, b2, b3, lo]).getD 1 0 >>> 2 = b1) ∧
       ((lo >>> (2*2)) &&& 3 = 0 → (unpackGroup [b0, b1, b2, b3, lo]).getD 2 0 >>> 2 = b2) ∧
       ((lo >>> (2*3)) &&& 3 = 0 → (unpackGroup [b0, b1, b2, b3, lo]).getD 3 0 >>> 2 = b3))) := by
  obtain ⟨_, _, hflat⟩ := chunks_full 5 (by omega) m flat hlen
  constructor
  · simp [unpackFlat, hlen, Nat.mul_mod_left]
  · intro b0 b1 b2 b3 lo hmem
    have hsub : ∀ x ∈ [b0, b1, b2, b3, lo], x ∈ flat := by
      intro x hx
      rw [← hflat]
      exact List.mem_flatten.mpr ⟨_, hmem, hx⟩
    exact unpackGroup_spec b0 b1 b2 b3 lo
      (hb _ (hsub b0 (by simp))) (hb _ (hsub b1 (by simp)))
      (hb _ (hsub b2 (by simp))) (hb _ (hsub b3 (by simp)))

/-- Witness for C4 at a concrete buffer: one group `[255, 16, 3, 0, 228]`
(`228 = 0b11100100`, so the four 2-bit fields are `0, 1, 2, 3`). -/
theorem claim_C4_witness :
    unpackFlat [255, 16, 3, 0, 228] =
      .ok ((chunks 5 [255, 16, 3, 0, 228]).flatMap unpackGroup) ∧
    unpackGroup [255, 16, 3, 0, 228] = [1020, 65, 14, 3] := by
  have h := claim_C4 [255, 16, 3, 0, 228] 1 (by decide) (by decide)
  refine ⟨h.1, ?_⟩
  have h2 := (h.2 255 16 3 0 228 (by decide)).1
  rw [h2]; decide

/-! ## Claim C9: all decoder failures collapse to the `-1` sentinel -/

/-- **C9** (confirmed).  `unpack_mipi_raw10` never propagates a failure to its
caller: the result is either the integer sentinel `-1` or a pixel grid the
body produced, and whenever the body fails — with any error — the function
returns exactly `-1`, so callers cannot distinguish error kinds from the
return value. -/
theorem claim_C9 (input_raw : List Nat) (width stride height header : Nat) :
    (unpack_mipi_raw10 input_raw width stride height header = Sum.inl (-1) ∨
      ∃ g, unpack_mipi_raw10 input_raw width stride height header = Sum.inr g ∧
        unpackBody input_raw width stride height header = Except.ok g) ∧
    (∀ e, unpackBody input_raw width stride height header = Except.error e →
      unpack_mipi_raw10 input_raw width stride height header = Sum.inl (-1)) := by
  unfold unpack_mipi_raw10
  cases h : unpackBody input_raw width stride height header with
  | error e => simp [h]
  | ok g => simp [h]

/-- Witness for C9: an empty buffer with `stride = 1` fails the size check and
the decoder returns `-1`. -/
theorem claim_C9_witness : unpack_mipi_raw10 [] 1 1 1 0 = Sum.inl (-1) :=
  (claim_C9 [] 1 1 1 0).2 "MIPI RAW10 file size should be multiple of stride" rfl

/-! ## Claim C5: the strided decode contract -/

/-- Decode of one flat (already stride-trimmed) byte run. -/
def unpackRow (l : List Nat) : List Nat := (chunks 5 l).flatMap unpackGroup

theorem unpackGroup_length_of_five (c : List Nat) (h : c.length = 5) :
    (unpackGroup c).length = 4 := by
  match c with
  | [_, _, _, _, _] => rfl
  | [] => simp at h
  | [_] => simp at h
  | [_, _] => simp at h
  | [_, _, _] => simp at h
  | [_, _, _, _] => simp at h
  | _ :: _ :: _ :: _ :: _ :: _ :: _ => simp at h

theorem unpackRow_length (m : Nat) (l : List Nat) (h : l.length = m * 5) :
    (unpackRow l).length = m * 4 := by
  obtain ⟨h1, h2, _⟩ := chunks_full 5 (by omega) m l h
  unfold unpackRow
  rw [List.flatMap_def, flatten_length_const _ 4, List.length_map, h1]
  intro c hc
  rw [List.mem_map] at hc
  obtain ⟨d, hd, rfl⟩ := hc
  exact unpackGroup_length_of_five d (h2 d hd)

/-- Decoding the concatenation of runs whose lengths are multiples of 5
decodes each run independently. -/
theorem unpackRow_flatten (L : List (List Nat)) (h : ∀ c ∈ L, c.length % 5 = 0) :
    unpackRow L.flatten = (L.map unpackRow).flatten := by
  induction L with
  | nil => rfl
  | cons c L ih =>
    have hc : c.length = c.length / 5 * 5 := (Nat.div_mul_cancel (Nat.dvd_of_mod_eq_zero (h c (by simp)))).symm
    unfold unpackRow
    rw [List.flatten_cons, chunks_append 5 (by omega) (c.length / 5) c L.flatten hc,
      List.flatMap_append, List.map_cons, List.flatten_cons]
    congr 1
    exact ih (fun d hd => h d (by simp [hd]))

/-- **C5** counterexample.  `width = 9`, `stride = 12` satisfy the claim's
stated compatibility condition `stride*4/5 ≥ width` (`12*4 = 48 ≥ 45 = 9*5`),
`height = 1`, `header = 0`, and the 12-byte buffer covers
`header + stride*height` bytes — yet the decoder does not return a `1 × 9`
grid: only `floor(12/5)*5 = 10` bytes of the row unpack to `8 < 9` pixels,
the final reshape raises, and the function returns the `-1` sentinel. -/
theorem claim_C5_counterexample :
    9 * 5 ≤ 12 * 4 ∧
    (List.replicate 12 0).length = 0 + 12 * 1 ∧
    unpack_mipi_raw10 (List.replicate 12 0) 9 12 1 0 = Sum.inl (-1) := by
  refine ⟨by norm_num, by simp, ?_⟩
  rfl

/-- **C5** (corrected).  For every `width > 0`, `height > 0`, header skip and
positive stride satisfying `floor(stride/5)*4 ≥ width` (the condition the
claim's `stride*4/5 ≥ width` must be strengthened to), and an input buffer of
at least `header + stride*height` bytes, the decoder succeeds and returns a
grid of exactly `height` rows and `width` columns, in which each stride-byte
row contributes only its first `floor(stride/5)*5` bytes to unpacking and the
unpacked rows are trimmed to `width` columns. -/
theorem claim_C5_amended (input_raw : List Nat) (width stride height header : Nat)
    (hw : 0 < width) (_hh : 0 < height) (hs : 0 < stride)
    (hcompat : width ≤ stride / 5 * 4)
    (hsize : header + stride * height ≤ input_raw.length) :
    unpack_mipi_raw10 input_raw width stride height header =
      Sum.inr ((chunks stride ((input_raw.drop header).take (stride * height))).map
        (fun row => (unpackRow (row.take (stride / 5 * 5))).take width)) ∧
    ((chunks stride ((input_raw.drop header).take (stride * height))).map
        (fun row => (unpackRow (row.take (stride / 5 * 5))).take width)).length = height ∧
    (∀ r ∈ (chunks stride ((input_raw.drop header).take (stride * height))).map
        (fun row => (unpackRow (row.take (stride / 5 * 5))).take width), r.length = width) := by
  have hraw : stride * height ≤ (input_raw.drop header).length := by
    simp [List.length_drop]; omega
  set raw := input_raw.drop header with hraw_def
  set consumed := raw.take (stride * height) with hcons_def
  have hconslen : consumed.length = height * stride := by
    rw [hcons_def, List.length_take, Nat.min_eq_left hraw]; ring
  obtain ⟨hrows_len, hrows_each, hrows_flat⟩ :=
    chunks_full stride (by omega) height consumed hconslen
  set rows := chunks stride consumed with hrows_def
  set tw := stride / 5 * 5 with htw_def
  have htwle : tw ≤ stride := Nat.div_mul_le_self stride 5
  have htw5 : tw % 5 = 0 := Nat.mul_mod_left (stride / 5) 5
  set rowsT := rows.map (fun r => r.take tw) with hrowsT_def
  have hrowsT_each : ∀ c ∈ rowsT, c.length = tw := by
    intro c hc
    rw [hrowsT_def, List.mem_map] at hc
    obtain ⟨r, hr, rfl⟩ := hc
    simp [List.length_take, hrows_each r hr]; omega
  set flat := rowsT.flatten with hflat_def
  have hflatlen : flat.length = height * tw := by
    rw [hflat_def, flatten_length_const rowsT tw hrowsT_each, hrowsT_def,
      List.length_map, hrows_len]
  -- the unpacked stream and its row decomposition
  have htw_div : tw / 5 = stride / 5 := by
    rw [htw_def, Nat.mul_div_cancel _ (by norm_num)]
  have hup_rows : unpackRow flat = (rowsT.map unpackRow).flatten := by
    rw [hflat_def]
    exact unpackRow_flatten rowsT (fun c hc => by rw [hrowsT_each c hc]; exact htw5)
  set uw := tw * 4 / 5 with huw_def
  have huw_eq : uw = stride / 5 * 4 := by
    have h1 : tw * 4 = stride / 5 * 4 * 5 := by rw [htw_def]; ring
    rw [huw_def, h1, Nat.mul_div_cancel _ (by norm_num)]
  have huw_pos : 0 < uw := by omega
  have hupR_each : ∀ r ∈ rowsT.map unpackRow, r.length = uw := by
    intro r hr
    rw [List.mem_map] at hr
    obtain ⟨c, hc, rfl⟩ := hr
    rw [unpackRow_length (stride / 5) c (by rw [hrowsT_each c hc, htw_def]), huw_eq]
  have huplen : (unpackRow flat).length = height * uw := by
    rw [hup_rows, flatten_length_const _ uw hupR_each, List.length_map,
      List.length_map, hrows_len]
  -- now walk the body
  have hc2 : ¬ stride * 4 < width * 5 := by
    have h1 : width * 5 ≤ stride / 5 * 4 * 5 := Nat.mul_le_mul_right 5 hcompat
    have h2 : stride / 5 * 4 * 5 = tw * 4 := by rw [htw_def]; ring
    have h3 : tw * 4 ≤ stride * 4 := Nat.mul_le_mul_right 4 htwle
    omega
  have hflat_ok : unpackFlat flat = .ok (unpackRow flat) := by
    unfold unpackFlat unpackRow
    rw [if_pos (by rw [hflatlen, Nat.mul_mod, htw5]; rfl)]
  have hbody : unpackBody input_raw width stride height header =
      .ok (rowsT.map (fun r => (unpackRow r).take width)) := by
    simp only [unpackBody]
    rw [← hraw_def]
    rw [if_neg (by omega : ¬ stride = 0), if_neg (by omega : ¬ raw.length < stride * height),
      if_neg hc2]
    rw [← hcons_def, ← hrows_def, ← htw_def, ← hrowsT_def, ← hflat_def, hflat_ok]
    simp only [← huw_def]
    by_cases hcase : uw = width
    · rw [if_pos hcase]
      dsimp only
      rw [if_pos (by rw [huplen, hcase])]
      congr 1
      have hchunks : chunks width (unpackRow flat) = rowsT.map unpackRow := by
        rw [hup_rows, ← hcase]
        exact chunks_flatten uw (by omega) _ hupR_each
      rw [hchunks]
      apply List.map_congr_left
      intro r hr
      rw [← hcase, ← hupR_each (unpackRow r) (List.mem_map_of_mem _ hr)]
      exact (List.take_length _).symm
    · rw [if_neg hcase, if_pos huplen]
      dsimp only
      have hchunks : chunks uw (unpackRow flat) = rowsT.map unpackRow := by
        rw [hup_rows]
        exact chunks_flatten uw (by omega) _ hupR_each
      rw [hchunks, List.map_map]
      have hcomp : ((fun r => List.take width r) ∘ unpackRow) =
          (fun r => (unpackRow r).take width) := rfl
      rw [hcomp]
      have hfinal_each : ∀ c ∈ rowsT.map (fun r => (unpackRow r).take width),
          c.length = width := by
        intro c hc
        rw [List.mem_map] at hc
        obtain ⟨d, hd, rfl⟩ := hc
        rw [List.length_take, hupR_each (unpackRow d) (List.mem_map_of_mem _ hd)]
        omega
      have hfinal_len : ((rowsT.map (fun r => (unpackRow r).take width)).flatten).length
          = height * width := by
        rw [flatten_length_const _ width hfinal_each, List.length_map, List.length_map,
          hrows_len]
      rw [if_pos hfinal_len]
      congr 1
      exact chunks_flatten width (by omega) _ hfinal_each
  refine ⟨?_, ?_, ?_⟩
  · unfold unpack_mipi_raw10
    rw [hbody, hrowsT_def, List.map_map]
    rfl
  · rw [List.length_map, hrows_len]
  · intro r hr
    rw [List.mem_map] at hr
    obtain ⟨c, hc, rfl⟩ := hr
    have hcT : c.take tw ∈ rowsT := by
      rw [hrowsT_def]
      exact List.mem_map_of_mem _ hc
    rw [List.length_take, hupR_each (unpackRow (c.take tw)) (List.mem_map_of_mem _ hcT)]
    omega

/-- Witness for the amended C5: `width = 8`, `stride = 12`, `height = 1`
(`floor(12/5)*4 = 8 ≥ 8`): the decoder succeeds with one row of 8 pixels. -/
theorem claim_C5_amended_witness :
    unpack_mipi_raw10 (List.replicate 12 0) 8 12 1 0 =
      Sum.inr ((chunks 12 ((List.replicate 12 (0:Nat)).drop 0 |>.take (12 * 1))).map
        (fun row => (unpackRow (row.take (12 / 5 * 5))).take 8)) :=
  (claim_C5_amended (List.replicate 12 0) 8 12 1 0 (by norm_num) (by norm_num)
    (by norm_num) (by norm_num) (by simp)).1

/-! ## The ROI model and its persistence (`src/flare_automation/analysis/roi.py`)

JSON values (the parsed content of `rois.json`) are modelled by `JVal`.
Python `dict`s are association lists keyed in insertion order (`dict.get`
returns the first — unique — binding). -/

inductive JVal where
  | num (q : ℚ)
  | str (s : String)
  | bool (b : Bool)
  | null
  | arr (items : List JVal)
  | obj (fields : List (String × JVal))

/-- `isinstance(v, Mapping)`. -/
def JVal.isObj : JVal → Bool
  | .obj _ => true
  | _ => false

/-- `data.get(k)` on a mapping (`None` when the key is absent). -/
def JVal.get? : JVal → String → Option JVal
  | .obj fields, k => fields.lookup k
  | _, _ => none

/-- Python `int(value)`: numbers truncate toward zero, numeric strings parse,
booleans coerce; everything else raises (`none`). -/
def JVal.pyInt? : JVal → Option Int
  | .num q => some (Int.tdiv q.num q.den)
  | .str s => s.toInt?
  | .bool b => some (if b then 1 else 0)
  | _ => none

/-- Python `str(value)`.  The textual rendering of non-string values is
abstracted (the persisted format and the claims only ever apply it to
string-valued `name` fields). -/
def JVal.pyStr : JVal → String
  | .str s => s
  | .bool b => if b then "True" else "False"
  | .null => "None"
  | .num q => toString q.num
  | .arr _ => "<list>"
  | .obj _ => "<dict>"

/-- `ROI` dataclass: name, integer center `(x, y)`, integer size
`(width, height)`. -/
structure ROI where
  name : String
  center : Int × Int
  size : Int × Int
deriving DecidableEq

/-- `ROI.__post_init__`: construction fails unless both dimensions are
positive. -/
def mkROI (name : String) (center size : Int × Int) : Except String ROI :=
  if size.1 ≤ 0 ∨ size.2 ≤ 0 then .error "ROI dimensions must be positive"
  else .ok ⟨name, center, size⟩

/-- `ROI.bounds()`: origin = center − size // 2 (Python floor division). -/
def ROI.bounds (roi : ROI) : Int × Int × Int × Int :=
  (roi.center.1 - Int.fdiv roi.size.1 2, roi.center.2 - Int.fdiv roi.size.2 2,
    roi.size.1, roi.size.2)

/-- `ROI.to_mapping()`. -/
def ROI.to_mapping (roi : ROI) : JVal :=
  .obj [("name", .str roi.name),
        ("center", .obj [("x", .num (roi.center.1 : ℚ)), ("y", .num (roi.center.2 : ℚ))]),
        ("size", .obj [("width", .num (roi.size.1 : ℚ)), ("height", .num (roi.size.2 : ℚ))])]

/-- `int(mapping[k])` inside `ROI.from_mapping`: a missing key raises the
"missing coordinate keys" `ValueError`; a non-coercible value raises `int()`'s
own `ValueError` (uncaught by `from_mapping`, but equally an error for the
caller). -/
def getCoord (m : JVal) (k : String) : Except String Int :=
  match m.get? k with
  | none => .error "ROI mapping missing coordinate keys"
  | some v =>
    match v.pyInt? with
    | none => .error "invalid literal for int()"
    | some i => .ok i

/-- `ROI.from_mapping(data)` (for `data` already known to be a mapping). -/
def ROI.from_mapping (data : JVal) : Except String ROI :=
  match data.get? "name" with
  | none => .error "ROI mapping missing 'name'"
  | some nameVal =>
    let centerData := (data.get? "center").getD (.obj [])
    let sizeData := (data.get? "size").getD (.obj [])
    if ¬ (centerData.isObj ∧ sizeData.isObj) then
      .error "ROI mapping must include 'center' and 'size' objects"
    else do
      let x ← getCoord centerData "x"
      let y ← getCoord centerData "y"
      let w ← getCoord sizeData "width"
      let h ← getCoord sizeData "height"
      mkROI nameVal.pyStr (x, y) (w, h)

/-- `load_roi_set` applied to the parsed content of an existing ROI file
(the missing-file early return and `json.load` itself are outside the model).
Note the source performs no duplicate-name check. -/
def load_roi_set (payload : JVal) : Except String (List ROI) :=
  match payload with
  | .arr entries =>
    entries.mapM (fun entry =>
      if entry.isObj then ROI.from_mapping entry
      else .error "ROI entries must be objects")
  | _ => .error "ROI file must contain an array of ROI definitions"

/-- `sorted(rois, key=lambda item: item.name)` (Python's stable sort). -/
def sortByName (rois : List ROI) : List ROI :=
  rois.mergeSort (fun a b => decide (a.name ≤ b.name))

/-- The JSON array `save_roi_set` writes:
`[roi.to_mapping() for roi in sorted(rois, key=name)]`.  (`json.dump`'s
`sort_keys` only affects textual key order inside objects, which the mapping
model does not distinguish; the filesystem write is outside the model.) -/
def save_roi_set_payload (rois : List ROI) : JVal :=
  .arr ((sortByName rois).map ROI.to_mapping)

/-- `load_raw16_image`: file contents are given as the parsed `uint16` sample
list (`np.fromfile`); the missing-file `FileNotFoundError` path is outside
the model.  `stride = stride or width` replaces `None`/`0` by `width`. -/
def load_raw16_image (data : List Nat) (width height : Nat) (stride : Option Nat) :
    Except String (List (List Nat)) :=
  let stride := match stride with
    | none => width
    | some 0 => width
    | some (n+1) => n+1
  if data.length < stride * height then
    .error "RAW16 file is too small for expected dimensions"
  else
    let image := chunks stride (data.take (stride * height))
    if stride ≠ width then .ok (image.map (fun row => row.take width))
    else .ok image

/-! ### Round-trip lemmas for the persisted format -/

theorem pyInt_intCast (i : Int) : JVal.pyInt? (.num (i : ℚ)) = some i := by
  simp [JVal.pyInt?, Rat.num_intCast, Rat.den_intCast, Int.tdiv_one]

theorem get_name (r : ROI) : (ROI.to_mapping r).get? "name" = some (.str r.name) := rfl

theorem get_center (r : ROI) : (ROI.to_mapping r).get? "center" =
    some (.obj [("x", .num (r.center.1 : ℚ)), ("y", .num (r.center.2 : ℚ))]) := rfl

theorem get_size (r : ROI) : (ROI.to_mapping r).get? "size" =
    some (.obj [("width", .num (r.size.1 : ℚ)), ("height", .num (r.size.2 : ℚ))]) := rfl

theorem getCoord_of_get (m : JVal) (k : String) (i : Int)
    (h : m.get? k = some (.num (i : ℚ))) : getCoord m k = .ok i := by
  unfold getCoord
  rw [h]
  simp [pyInt_intCast]

theorem from_to_mapping (r : ROI) (h1 : 0 < r.size.1) (h2 : 0 < r.size.2) :
    ROI.from_mapping (ROI.to_mapping r) = .ok r := by
  have hx : getCoord (.obj [("x", .num (r.center.1 : ℚ)), ("y", .num (r.center.2 : ℚ))]) "x"
      = .ok r.center.1 := getCoord_of_get _ _ _ rfl
  have hy : getCoord (.obj [("x", .num (r.center.1 : ℚ)), ("y", .num (r.center.2 : ℚ))]) "y"
      = .ok r.center.2 := getCoord_of_get _ _ _ rfl
  have hw : getCoord (.obj [("width", .num (r.size.1 : ℚ)), ("height", .num (r.size.2 : ℚ))])
      "width" = .ok r.size.1 := getCoord_of_get _ _ _ rfl
  have hh : getCoord (.obj [("width", .num (r.size.1 : ℚ)), ("height", .num (r.size.2 : ℚ))])
      "height" = .ok r.size.2 := getCoord_of_get _ _ _ rfl
  unfold ROI.from_mapping
  rw [get_name, get_center, get_size]
  simp only [Option.getD_some, JVal.isObj, and_self, not_true_eq_false, if_false,
    hx, hy, hw, hh]
  show (if r.size.1 ≤ 0 ∨ r.size.2 ≤ 0 then
      (Except.error "ROI dimensions must be positive" : Except String ROI)
    else Except.ok ⟨r.name, (r.center.1, r.center.2), (r.size.1, r.size.2)⟩) = Except.ok r
  rw [if_neg (by omega)]

theorem load_roi_set_map_to_mapping :
    ∀ (rois : List ROI), (∀ r ∈ rois, 0 < r.size.1 ∧ 0 < r.size.2) →
      load_roi_set (.arr (rois.map ROI.to_mapping)) = .ok rois := by
  intro rois
  induction rois with
  | nil => intro _; rfl
  | cons r rs ih =>
    intro hpos
    have hr := hpos r (by simp)
    have hrs : ∀ x ∈ rs, 0 < x.size.1 ∧ 0 < x.size.2 :=
      fun x hx => hpos x (by simp [hx])
    have hm : (rs.map ROI.to_mapping).mapM (fun entry =>
        if entry.isObj then ROI.from_mapping entry
        else .error "ROI entries must be objects") = Except.ok rs := by
      have h := ih hrs
      simpa [load_roi_set] using h
    simp only [load_roi_set, List.map_cons, List.mapM_cons,
      show (ROI.to_mapping r).isObj = true from rfl, if_true,
      from_to_mapping r hr.1 hr.2, hm]
    rfl

/-! ## Claim C6: duplicate names at ROI load time -/

/-- **C6** counterexample.  A persisted ROI set containing two entries with
the same name `"roi_01"` does *not* fail to load: `load_roi_set` returns both
entries, so it can return a list containing two ROIs with equal names
(the source has no duplicate-name check and no `InvalidROIDefinition` error). -/
theorem claim_C6_counterexample :
    load_roi_set (JVal.arr
      [ROI.to_mapping ⟨"roi_01", (10, 10), (4, 4)⟩,
       ROI.to_mapping ⟨"roi_01", (30, 30), (4, 4)⟩]) =
      .ok [⟨"roi_01", (10, 10), (4, 4)⟩, ⟨"roi_01", (30, 30), (4, 4)⟩] ∧
    (⟨"roi_01", (10, 10), (4, 4)⟩ : ROI).name = (⟨"roi_01", (30, 30), (4, 4)⟩ : ROI).name := by
  constructor
  · rfl
  · rfl

/-- **C6** (corrected).  `load_roi_set` performs no name-uniqueness check:
loading any persisted set of well-formed entries (positive dimensions)
succeeds and returns all entries in file order, regardless of duplicate
names — duplicates are not fatal and no error is raised for them. -/
theorem claim_C6_amended (rois : List ROI)
    (hpos : ∀ r ∈ rois, 0 < r.size.1 ∧ 0 < r.size.2) :
    load_roi_set (.arr (rois.map ROI.to_mapping)) = .ok rois :=
  load_roi_set_map_to_mapping rois hpos

/-- Witness for the amended C6, at a two-entry set sharing the name `"dup"`. -/
theorem claim_C6_amended_witness :
    load_roi_set (.arr (([⟨"dup", (0, 0), (2, 2)⟩, ⟨"dup", (5, 5), (2, 2)⟩] :
      List ROI).map ROI.to_mapping)) =
      .ok [⟨"dup", (0, 0), (2, 2)⟩, ⟨"dup", (5, 5), (2, 2)⟩] :=
  claim_C6_amended [⟨"dup", (0, 0), (2, 2)⟩, ⟨"dup", (5, 5), (2, 2)⟩] (by decide)

/-! ## Claim C7: save/load round trip -/

/-- **C7** (confirmed).  Saving a finite collection of ROIs with
pairwise-distinct names and reloading yields exactly the input sorted
ascending by name (a sorted permutation of the input, and the unique such
list); consequently load-then-save is idempotent: re-saving the loaded list
produces the identical payload. -/
theorem claim_C7 (rois : List ROI)
    (hpos : ∀ r ∈ rois, 0 < r.size.1 ∧ 0 < r.size.2)
    (hnames : rois.Pairwise (fun a b => a.name ≠ b.name)) :
    load_roi_set (save_roi_set_payload rois) = .ok (sortByName rois) ∧
    (sortByName rois).Perm rois ∧
    (sortByName rois).Sorted (fun a b => a.name ≤ b.name) ∧
    (∀ l : List ROI, l.Perm rois → l.Sorted (fun a b => a.name ≤ b.name) →
      l = sortByName rois) ∧
    save_roi_set_payload (sortByName rois) = save_roi_set_payload rois := by
  have htrans : ∀ a b c : ROI, (decide (a.name ≤ b.name)) →
      (decide (b.name ≤ c.name)) → (decide (a.name ≤ c.name)) := by
    intro a b c hab hbc
    simp only [decide_eq_true_eq] at *
    exact le_trans hab hbc
  have htotal : ∀ a b : ROI,
      (decide (a.name ≤ b.name)) || (decide (b.name ≤ a.name)) := by
    intro a b
    simp only [Bool.or_eq_true, decide_eq_true_eq]
    exact le_total a.name b.name
  have hperm : (sortByName rois).Perm rois := List.mergeSort_perm rois _
  have hpair : (sortByName rois).Pairwise (fun a b => decide (a.name ≤ b.name)) :=
    List.sorted_mergeSort htrans htotal rois
  have hsorted : (sortByName rois).Sorted (fun a b => a.name ≤ b.name) :=
    hpair.imp (fun h => of_decide_eq_true h)
  have hne_symm : ∀ {x y : ROI}, x.name ≠ y.name → y.name ≠ x.name :=
    fun h e => h e.symm
  refine ⟨?_, hperm, hsorted, ?_, ?_⟩
  · unfold save_roi_set_payload
    exact load_roi_set_map_to_mapping (sortByName rois)
      (fun r hr => hpos r (hperm.mem_iff.mp hr))
  · intro l hl hlsorted
    have hlperm : l.Perm (sortByName rois) := hl.trans hperm.symm
    have hner : (sortByName rois).Pairwise (fun a b => a.name ≠ b.name) :=
      ((List.Perm.pairwise_iff hne_symm hperm).mpr hnames)
    have hnel : l.Pairwise (fun a b => a.name ≠ b.name) :=
      ((List.Perm.pairwise_iff hne_symm hl).mpr hnames)
    have hstrictl : l.Sorted (fun a b : ROI => a.name < b.name) :=
      (hlsorted.and hnel).imp (fun h => lt_of_le_of_ne h.1 h.2)
    have hstrictr : (sortByName rois).Sorted (fun a b : ROI => a.name < b.name) :=
      (hsorted.and hner).imp (fun h => lt_of_le_of_ne h.1 h.2)
    exact @List.eq_of_perm_of_sorted ROI (fun a b => a.name < b.name)
      ⟨fun a b h1 h2 => absurd h2 (lt_asymm h1)⟩ _ _ hlperm hstrictl hstrictr
  · unfold save_roi_set_payload
    rw [show sortByName (sortByName rois) = sortByName rois from
      List.mergeSort_of_sorted hpair]

/-- Witness for C7 at an unsorted two-ROI set with distinct names. -/
theorem claim_C7_witness :
    load_roi_set (save_roi_set_payload
      [⟨"roi_02", (9, 9), (2, 2)⟩, ⟨"roi_01", (1, 1), (2, 2)⟩]) =
      .ok (sortByName [⟨"roi_02", (9, 9), (2, 2)⟩, ⟨"roi_01", (1, 1), (2, 2)⟩]) ∧
    sortByName [⟨"roi_02", (9, 9), (2, 2)⟩, ⟨"roi_01", (1, 1), (2, 2)⟩] =
      [⟨"roi_01", (1, 1), (2, 2)⟩, ⟨"roi_02", (9, 9), (2, 2)⟩] := by
  have h := claim_C7 [⟨"roi_02", (9, 9), (2, 2)⟩, ⟨"roi_01", (1, 1), (2, 2)⟩]
    (by decide) (by decide)
  exact ⟨h.1, (h.2.2.2.1 [⟨"roi_01", (1, 1), (2, 2)⟩, ⟨"roi_02", (9, 9), (2, 2)⟩]
    (by decide) (by simp [List.sorted_cons]; decide)).symm⟩

/-! ## Claim C10: `load_raw16_image` with stride < width -/

/-- **C10** (confirmed).  For every call with a positive stride strictly
smaller than the declared width and a file holding at least `stride*height`
16-bit samples, `load_raw16_image` succeeds and returns an array of `height`
rows and `stride` columns (fewer than `width`): the column trim
`image[:, :width]` is a no-op when `stride < width`.  Moreover a stride of
`0` is replaced by `width` exactly as an absent stride is, before any check. -/
theorem claim_C10 (data : List Nat) (width height stride : Nat)
    (hs : 0 < stride) (hlt : stride < width) (hsize : stride * height ≤ data.length) :
    (∃ g, load_raw16_image data width height (some stride) = .ok g ∧
        g.length = height ∧ ∀ row ∈ g, row.length = stride) ∧
    (∀ (d : List Nat) (w h : Nat),
      load_raw16_image d w h (some 0) = load_raw16_image d w h none) := by
  constructor
  · obtain ⟨s, rfl⟩ : ∃ s, stride = s + 1 := ⟨stride - 1, by omega⟩
    have hlen : (data.take ((s+1) * height)).length = height * (s+1) := by
      rw [List.length_take, Nat.min_eq_left hsize]; ring
    obtain ⟨hL, hEach, _⟩ := chunks_full (s+1) (by omega) height _ hlen
    have hres : load_raw16_image data width height (some (s+1)) =
        .ok ((chunks (s+1) (data.take ((s+1) * height))).map (fun row => row.take width)) := by
      simp only [load_raw16_image]
      rw [if_neg (by omega : ¬ data.length < (s+1) * height)]
      rw [if_pos (by omega : (s+1) ≠ width)]
    refine ⟨_, hres, ?_, ?_⟩
    · rw [List.length_map, hL]
    · intro row hrow
      rw [List.mem_map] at hrow
      obtain ⟨c, hc, rfl⟩ := hrow
      rw [List.length_take, hEach c hc]
      omega
  · intro d w h
    rfl

/-- Witness for C10: a 4-sample file, `width = 3`, `height = 2`, `stride = 2`
loads as 2 rows of 2 columns. -/
theorem claim_C10_witness :
    ∃ g, load_raw16_image (List.replicate 4 0) 3 2 (some 2) = .ok g ∧
      g.length = 2 ∧ ∀ row ∈ g, row.length = 2 :=
  (claim_C10 (List.replicate 4 0) 3 2 2 (by norm_num) (by norm_num) (by simp)).1

/-! ## The measurement engine (`photo_response.py`: `_roi_mean`, `_measure_capture`)

Frames are the rectangular `uint16` grids produced by `load_raw16_image`;
`frame.shape == (frameHeight, frameWidth)`. -/

def frameHeight (frame : List (List Nat)) : Nat := frame.length

def frameWidth (frame : List (List Nat)) : Nat := (frame.headD []).length

/-- `_roi_mean(frame, roi)`: raises whenever any part of the ROI window lies
outside the frame; otherwise the NumPy mean of `frame[y0:y1, x0:x1]`, i.e.
the sum of the slice divided by its element count `(y1-y0)*(x1-x0)`.  (The
Python error message's trailing `frame.shape` rendering is elided.) -/
def roiMean (frame : List (List Nat)) (roi : ROI) : Except String ℚ :=
  let x0 := roi.bounds.1
  let y0 := roi.bounds.2.1
  let w := roi.bounds.2.2.1
  let h := roi.bounds.2.2.2
  let x1 := x0 + w
  let y1 := y0 + h
  if x0 < 0 ∨ y0 < 0 ∨ (frameWidth frame : Int) < x1 ∨ (frameHeight frame : Int) < y1 then
    .error ("ROI " ++ roi.name ++ " falls outside the frame bounds")
  else
    let region := ((frame.drop y0.toNat).take (y1 - y0).toNat).map
      (fun row => (row.drop x0.toNat).take (x1 - x0).toNat)
    .ok ((region.flatten.map (fun v : Nat => (v : ℚ))).sum / (((y1 - y0) * (x1 - x0) : Int) : ℚ))

/-- The "fully outside" test of `_clip_roi_bounds` in `roi.py` (under which
the *clipping* helper — not the measurement engine — skips an ROI). -/
def fullyOutside (frame : List (List Nat)) (roi : ROI) : Bool :=
  decide (roi.bounds.1 + roi.bounds.2.2.1 ≤ 0) ||
  decide (roi.bounds.2.1 + roi.bounds.2.2.2 ≤ 0) ||
  decide ((frameWidth frame : Int) ≤ roi.bounds.1) ||
  decide ((frameHeight frame : Int) ≤ roi.bounds.2.1)

/-- `PhotoResponseMeasurement` dataclass. -/
structure PhotoResponseMeasurement where
  illumination : String
  sequence : String
  exposure_us : Int
  frame_index : Nat
  roi_name : String
  mean_dn : ℚ
  normalised_dn : ℚ
  saturated : Bool
  nd_factor : ℚ
  source_file : String
deriving DecidableEq

/-- The per-(frame, ROI) step of `_measure_capture`'s inner loop: a failing
`_roi_mean` is logged and the pair skipped (`none`); otherwise the
measurement row is built with `saturated = mean_dn > saturation_threshold`
and `normalised_dn = mean_dn / nd_factor`. -/
def measureOne (illumination sequence : String) (exposure_us : Int) (frame_index : Nat)
    (source_file : String) (frame : List (List Nat)) (roi : ROI)
    (saturation_threshold nd_factor : ℚ) : Option PhotoResponseMeasurement :=
  match roiMean frame roi with
  | .error _ => none
  | .ok mean_dn =>
    some { illumination := illumination, sequence := sequence, exposure_us := exposure_us,
           frame_index := frame_index, roi_name := roi.name, mean_dn := mean_dn,
           normalised_dn := mean_dn / nd_factor,
           saturated := decide (saturation_threshold < mean_dn),
           nd_factor := nd_factor, source_file := source_file }

/-! ## Claim C8: the saturation flag is a strict comparison -/

/-- **C8** (confirmed).  For every measurement the engine produces, the
`saturated` flag is true iff `mean_dn` is strictly greater than the
saturation threshold: equality is not saturated, any strictly larger
`mean_dn` is. -/
theorem claim_C8 (illumination sequence : String) (exposure_us : Int) (frame_index : Nat)
    (source_file : String) (frame : List (List Nat)) (roi : ROI) (thr nd : ℚ)
    (m : PhotoResponseMeasurement)
    (hm : measureOne illumination sequence exposure_us frame_index source_file
      frame roi thr nd = some m) :
    (m.saturated = true ↔ thr < m.mean_dn) ∧
    (m.mean_dn = thr → m.saturated = false) ∧
    (thr < m.mean_dn → m.saturated = true) := by
  unfold measureOne at hm
  cases h : roiMean frame roi with
  | error e => rw [h] at hm; exact absurd hm (by simp)
  | ok v =>
    rw [h] at hm
    obtain rfl := Option.some.inj hm
    refine ⟨by simp, ?_, ?_⟩
    · intro he
      simp only at he ⊢
      rw [he]
      simp
    · intro hlt
      simp only at hlt ⊢
      simp [hlt]

def sampleMeasurement : PhotoResponseMeasurement :=
  ⟨"ill", "seq", 1000, 1, "r", 5, 5, false, 1, "f.raw"⟩

/-- Witness for C8 at the boundary case: a 1×1 frame of value 5 with
threshold exactly 5 — not saturated. -/
theorem claim_C8_witness :
    (sampleMeasurement.saturated = true ↔ (5 : ℚ) < sampleMeasurement.mean_dn) ∧
    (sampleMeasurement.mean_dn = 5 → sampleMeasurement.saturated = false) ∧
    ((5 : ℚ) < sampleMeasurement.mean_dn → sampleMeasurement.saturated = true) :=
  claim_C8 "ill" "seq" 1000 1 "f.raw" [[5]] ⟨"r", (0, 0), (1, 1)⟩ 5 1
    sampleMeasurement (by
      have h5 : roiMean [[5]] ⟨"r", (0, 0), (1, 1)⟩ = .ok 5 := by
        simp only [roiMean, ROI.bounds, frameWidth, frameHeight]
        norm_num [Int.fdiv]
      simp only [measureOne, h5]
      norm_num [sampleMeasurement])

/-! ## Claim C1: out-of-bounds ROI handling in the measurement engine -/

/-- The ROI window is entirely inside the frame (negation of `_roi_mean`'s
error test). -/
def roiInBounds (frame : List (List Nat)) (roi : ROI) : Prop :=
  0 ≤ roi.bounds.1 ∧ 0 ≤ roi.bounds.2.1 ∧
  roi.bounds.1 + roi.bounds.2.2.1 ≤ (frameWidth frame : Int) ∧
  roi.bounds.2.1 + roi.bounds.2.2.2 ≤ (frameHeight frame : Int)

instance (frame : List (List Nat)) (roi : ROI) : Decidable (roiInBounds frame roi) := by
  unfold roiInBounds
  infer_instance

/-- The arithmetic mean over the ROI's rectangular window, written directly
as an indexed double sum (the claim's formulation of `mean_dn`). -/
def windowMean (frame : List (List Nat)) (x0 y0 w h : Nat) : ℚ :=
  (((List.range h).map (fun dy =>
    ((List.range w).map (fun dx => (((frame.getD (y0 + dy) []).getD (x0 + dx) 0 : Nat) : ℚ))).sum)).sum)
  / ((w * h : Nat) : ℚ)

/-- **C1** counterexample.  A 2×2 frame and the ROI centred at `(0,0)` with
size `(2,2)` (window `[-1,1) × [-1,1)`) *partially* overlaps the frame — it
is not fully outside — yet `_roi_mean` raises instead of returning the mean
over the clipped window, so the pair is a hard failure. -/
theorem claim_C1_counterexample :
    roiMean [[1, 2], [3, 4]] ⟨"roi_p", (0, 0), (2, 2)⟩ =
      .error "ROI roi_p falls outside the frame bounds" ∧
    fullyOutside [[1, 2], [3, 4]] ⟨"roi_p", (0, 0), (2, 2)⟩ = false := by
  constructor
  · rfl
  · rfl

theorem slice_eq_range_map (l : List α) (d : α) (a n : Nat) (h : a + n ≤ l.length) :
    (l.drop a).take n = (List.range n).map (fun i => l.getD (a + i) d) := by
  apply List.ext_getElem?
  intro i
  by_cases hi : i < n
  · have hlt : a + i < l.length := by omega
    rw [List.getElem?_take_of_lt hi, List.getElem?_drop, List.getElem?_map,
      List.getElem?_range hi, List.getElem?_eq_getElem hlt]
    simp [List.getD_eq_getElem?_getD, List.getElem?_eq_getElem hlt]
  · rw [List.getElem?_eq_none (by simp [List.length_take, List.length_drop]; omega),
      List.getElem?_eq_none (by simp; omega)]

theorem region_sum_eq (frame : List (List Nat)) (x0 y0 w h : Nat)
    (hrect : ∀ row ∈ frame, row.length = frameWidth frame)
    (hx : x0 + w ≤ frameWidth frame) (hy : y0 + h ≤ frame.length) :
    ((((frame.drop y0).take h).map (fun row => (row.drop x0).take w)).flatten.map
      (fun v : Nat => (v : ℚ))).sum =
    ((List.range h).map (fun dy =>
      ((List.range w).map (fun dx =>
        (((frame.getD (y0 + dy) []).getD (x0 + dx) 0 : Nat) : ℚ))).sum)).sum := by
  rw [slice_eq_range_map frame [] y0 h hy, List.map_map, List.map_flatten,
    List.sum_flatten, List.map_map, List.map_map]
  apply congrArg List.sum
  apply List.map_congr_left
  intro dy hdy
  rw [List.mem_range] at hdy
  simp only [Function.comp]
  have hrow : frame.getD (y0 + dy) [] ∈ frame := by
    have hidx : y0 + dy < frame.length := by omega
    rw [List.getD_eq_getElem?_getD, List.getElem?_eq_getElem hidx]
    exact List.getElem_mem hidx
  have hlen : x0 + w ≤ (frame.getD (y0 + dy) []).length := by
    rw [hrect _ hrow]; exact hx
  rw [slice_eq_range_map (frame.getD (y0 + dy) []) 0 x0 w hlen, List.map_map]
  rfl

/-- **C1** (corrected).  For every rectangular frame and every ROI (with the
positive dimensions enforced at ROI construction), the measurement engine
computes `mean_dn` as the arithmetic mean over the ROI's *full* rectangular
window when that window lies entirely within the frame bounds; a hard
failure for the (frame, ROI) pair occurs whenever any part of the window is
outside the frame — an ROI that merely partially overlaps the frame is also
a hard failure (skipped by `_measure_capture`), not a measurement over the
clipped window. -/
theorem claim_C1_amended (frame : List (List Nat)) (roi : ROI)
    (hrect : ∀ row ∈ frame, row.length = frameWidth frame)
    (hw : 0 < roi.size.1) (hh : 0 < roi.size.2) :
    (roiInBounds frame roi →
      roiMean frame roi = .ok (windowMean frame roi.bounds.1.toNat roi.bounds.2.1.toNat
        roi.bounds.2.2.1.toNat roi.bounds.2.2.2.toNat)) ∧
    (¬ roiInBounds frame roi →
      roiMean frame roi = .error ("ROI " ++ roi.name ++ " falls outside the frame bounds")) ∧
    (∀ ill seq exp idx src thr nd, ¬ roiInBounds frame roi →
      measureOne ill seq exp idx src frame roi thr nd = none) ∧
    (∀ ill seq exp idx src thr nd, roiInBounds frame roi →
      ∃ m, measureOne ill seq exp idx src frame roi thr nd = some m ∧
        m.mean_dn = windowMean frame roi.bounds.1.toNat roi.bounds.2.1.toNat
          roi.bounds.2.2.1.toNat roi.bounds.2.2.2.toNat) := by
  have hcond : (roi.bounds.1 < 0 ∨ roi.bounds.2.1 < 0 ∨
      (frameWidth frame : Int) < roi.bounds.1 + roi.bounds.2.2.1 ∨
      (frameHeight frame : Int) < roi.bounds.2.1 + roi.bounds.2.2.2) ↔
      ¬ roiInBounds frame roi := by
    unfold roiInBounds
    constructor
    · intro hc hin; omega
    · intro hn; by_contra hc; exact hn (by omega)
  have hok : roiInBounds frame roi →
      roiMean frame roi = .ok (windowMean frame roi.bounds.1.toNat roi.bounds.2.1.toNat
        roi.bounds.2.2.1.toNat roi.bounds.2.2.2.toNat) := by
    intro hin
    obtain ⟨h1, h2, h3, h4⟩ := hin
    simp only [roiMean]
    rw [if_neg (fun hc => (hcond.mp hc) ⟨h1, h2, h3, h4⟩)]
    have e1 : roi.bounds.2.1 + roi.bounds.2.2.2 - roi.bounds.2.1 = roi.bounds.2.2.2 := by omega
    have e2 : roi.bounds.1 + roi.bounds.2.2.1 - roi.bounds.1 = roi.bounds.2.2.1 := by omega
    rw [e1, e2]
    congr 1
    unfold windowMean
    have b1 : roi.bounds.2.2.1 = roi.size.1 := rfl
    have b2 : roi.bounds.2.2.2 = roi.size.2 := rfl
    have b3 : frameHeight frame = frame.length := rfl
    rw [region_sum_eq frame roi.bounds.1.toNat roi.bounds.2.1.toNat
      roi.bounds.2.2.1.toNat roi.bounds.2.2.2.toNat hrect (by omega) (by omega)]
    congr 1
    have e3 : (roi.bounds.2.2.1.toNat : ℤ) = roi.bounds.2.2.1 :=
      Int.toNat_of_nonneg (le_of_lt hw)
    have e4 : (roi.bounds.2.2.2.toNat : ℤ) = roi.bounds.2.2.2 :=
      Int.toNat_of_nonneg (le_of_lt hh)
    rw [Nat.cast_mul, ← @Int.cast_natCast ℚ _ roi.bounds.2.2.1.toNat,
      ← @Int.cast_natCast ℚ _ roi.bounds.2.2.2.toNat, e3, e4, Int.cast_mul]
    ring
  have herr : ¬ roiInBounds frame roi →
      roiMean frame roi = .error ("ROI " ++ roi.name ++ " falls outside the frame bounds") := by
    intro hnin
    simp only [roiMean]
    rw [if_pos (hcond.mpr hnin)]
  refine ⟨hok, herr, ?_, ?_⟩
  · intro ill seq exp idx src thr nd hnin
    unfold measureOne
    rw [herr hnin]
  · intro ill seq exp idx src thr nd hin
    unfold measureOne
    rw [hok hin]
    exact ⟨_, rfl, rfl⟩

/-- Witness for the amended C1: on the 2×2 frame `[[1,2],[3,4]]`, the 1×2 ROI
centred at `(1, 0)` lies fully inside and its mean is `(1+2)/2 = 3/2`; the
partially-overlapping ROI of the counterexample is rejected. -/
theorem claim_C1_amended_witness :
    roiMean [[1, 2], [3, 4]] ⟨"roi_t", (1, 0), (2, 1)⟩ =
      .ok (windowMean [[1, 2], [3, 4]] 0 0 2 1) ∧
    windowMean [[1, 2], [3, 4]] 0 0 2 1 = 3 / 2 := by
  have h := claim_C1_amended [[1, 2], [3, 4]] ⟨"roi_t", (1, 0), (2, 1)⟩
    (by decide) (by decide) (by decide)
  refine ⟨h.1 (by decide), ?_⟩
  simp [windowMean, List.range_succ]
  norm_num

/-! ## The ND normalisation factor (`photo_response.py`: `_nd_normalisation_factor`)

Capture metadata is a JSON-like mapping, modelled as an association list of
`JVal`s (as in the ROI persistence model). -/

/-- Python `float(value)` inside the probes' `try/except (TypeError,
ValueError)`: numbers succeed, booleans coerce; `None`, nested blocks and
other values are "non-numeric" and skipped.  (Numeric strings, which
`float` would parse, are abstracted as non-numeric; no claim exercises
them.) -/
def JVal.pyFloat? : JVal → Option ℚ
  | .num q => some q
  | .bool b => some (if b then 1 else 0)
  | _ => none

/-- The value `_nd_normalisation_factor` returns, kept symbolic so that the
optical-density conversion `10 ** (-D)` (irrational for fractional `D`)
needs no real-number arithmetic: `ofRat q` is a factor taken directly from
the metadata, `ofDensity d` stands for the factor `10^(−d)`. -/
inductive NdFactor where
  | ofRat (q : ℚ)
  | ofDensity (d : ℚ)
deriving DecidableEq

/-- Numeric value of an `NdFactor`, where it is rational (integer densities). -/
def NdFactor.val? : NdFactor → Option ℚ
  | .ofRat q => some q
  | .ofDensity d => if d.den = 1 then some ((10 : ℚ) ^ (-d.num)) else none

/-- The shared shape of the two factor loops in `_nd_normalisation_factor`:
first key among `keys` whose value coerces to a *positive* float; missing
keys, `None`, non-numeric and non-positive candidates are skipped and the
scan continues. -/
def firstPositiveFactor (fields : List (String × JVal)) : List String → Option ℚ
  | [] => none
  | k :: ks =>
    match fields.lookup k with
    | none => firstPositiveFactor fields ks
    | some v =>
      match v.pyFloat? with
      | none => firstPositiveFactor fields ks
      | some q => if 0 < q then some q else firstPositiveFactor fields ks

/-- The density loops: first key among `keys` with a numeric value.  (The
source's subsequent `10**(-density) > 0` guard is mathematically always
satisfied, so a numeric density is returned unconditionally.) -/
def firstDensity (fields : List (String × JVal)) : List String → Option ℚ
  | [] => none
  | k :: ks =>
    match fields.lookup k with
    | none => firstDensity fields ks
    | some v =>
      match v.pyFloat? with
      | none => firstDensity fields ks
      | some d => some d

/-- `_nd_normalisation_factor(metadata)`.  Note the fourth step probes only
the top-level `nd_density` key, and the `nd_filter` factor loop includes the
`nd_factor` key. -/
def nd_normalisation_factor (metadata : List (String × JVal)) : NdFactor :=
  if metadata.isEmpty then .ofRat 1
  else
    match firstPositiveFactor metadata
      ["nd_factor", "nd_attenuation", "attenuation", "transmission"] with
    | some q => .ofRat q
    | none =>
      let fromFilter : Option NdFactor :=
        match metadata.lookup "nd_filter" with
        | some (JVal.obj fields) =>
          match firstPositiveFactor fields
            ["factor", "nd_factor", "attenuation", "transmission"] with
          | some q => some (.ofRat q)
          | none =>
            match firstDensity fields ["nd_density", "density", "optical_density"] with
            | some d => some (.ofDensity d)
            | none => none
        | _ => none
      match fromFilter with
      | some f => f
      | none =>
        match (metadata.lookup "nd_density").bind JVal.pyFloat? with
        | some d => .ofDensity d
        | none => .ofRat 1

/-! ### Claim C3: the derivation priority -/

/-- First positive numeric value among `keys`, as the claim words it
("non-numeric or non-positive candidates are skipped and the search
continues"). -/
def specFirstPositive (fields : List (String × JVal)) : List String → Option ℚ
  | [] => none
  | k :: ks =>
    match fields.lookup k with
    | none => specFirstPositive fields ks
    | some v =>
      match v.pyFloat? with
      | none => specFirstPositive fields ks
      | some q => if 0 < q then some q else specFirstPositive fields ks

/-- First numeric value among `keys` (the claim's optical-density probes). -/
def specFirstDensity (fields : List (String × JVal)) : List String → Option ℚ
  | [] => none
  | k :: ks =>
    match fields.lookup k with
    | none => specFirstDensity fields ks
    | some v =>
      match v.pyFloat? with
      | none => specFirstDensity fields ks
      | some d => some d

/-- The derivation exactly as claim C3 states it: (1) first positive numeric
among top-level `nd_factor`/`nd_attenuation`/`attenuation`/`transmission`;
(2) else a positive scalar `factor`/`attenuation`/`transmission` key inside a
nested `nd_filter` block; (3) else an optical-density key
(`nd_density`/`density`/`optical_density`) in that block, as `10^(−D)`;
(4) else a top-level optical-density key — any of
`nd_density`/`density`/`optical_density` — converted the same way;
(5) else `1.0`. -/
def ndFactorClaimed (metadata : List (String × JVal)) : NdFactor :=
  match specFirstPositive metadata
    ["nd_factor", "nd_attenuation", "attenuation", "transmission"] with
  | some q => .ofRat q
  | none =>
    let fromFilter : Option NdFactor :=
      match metadata.lookup "nd_filter" with
      | some (JVal.obj fields) =>
        match specFirstPositive fields ["factor", "attenuation", "transmission"] with
        | some q => some (.ofRat q)
        | none =>
          match specFirstDensity fields ["nd_density", "density", "optical_density"] with
          | some d => some (.ofDensity d)
          | none => none
      | _ => none
    match fromFilter with
    | some f => f
    | none =>
      match specFirstDensity metadata ["nd_density", "density", "optical_density"] with
      | some d => .ofDensity d
      | none => .ofRat 1

/-- Claim C3 amended to the source's key sets: step (2) also accepts an
`nd_factor` key inside the `nd_filter` block, and step (4) probes *only* the
top-level `nd_density` key (`density`/`optical_density` are ignored at top
level). -/
def ndFactorAmended (metadata : List (String × JVal)) : NdFactor :=
  match specFirstPositive metadata
    ["nd_factor", "nd_attenuation", "attenuation", "transmission"] with
  | some q => .ofRat q
  | none =>
    let fromFilter : Option NdFactor :=
      match metadata.lookup "nd_filter" with
      | some (JVal.obj fields) =>
        match specFirstPositive fields
          ["factor", "nd_factor", "attenuation", "transmission"] with
        | some q => some (.ofRat q)
        | none =>
          match specFirstDensity fields ["nd_density", "density", "optical_density"] with
          | some d => some (.ofDensity d)
          | none => none
      | _ => none
    match fromFilter with
    | some f => f
    | none =>
      match specFirstDensity metadata ["nd_density"] with
      | some d => .ofDensity d
      | none => .ofRat 1

/-- **C3** counterexample.  (a) On `{"density": 2.0}` the claim's priority
gives the optical-density conversion `10^(−2) = 0.01`, but the code ignores
top-level `density` (it probes only `nd_density`) and falls back to `1.0`.
(b) On `{"nd_filter": {"nd_factor": 2.0}}` the code returns `2.0` (its
nested loop includes `nd_factor`) while the claim's step (2) key list misses
it and the claim falls back to `1.0`. -/
theorem claim_C3_counterexample :
    nd_normalisation_factor [("density", .num 2)] = .ofRat 1 ∧
    ndFactorClaimed [("density", .num 2)] = .ofDensity 2 ∧
    NdFactor.val? (.ofRat 1) = some 1 ∧
    NdFactor.val? (.ofDensity 2) = some (1 / 100) ∧
    (1 : ℚ) ≠ 1 / 100 ∧
    nd_normalisation_factor [("nd_filter", .obj [("nd_factor", .num 2)])] = .ofRat 2 ∧
    ndFactorClaimed [("nd_filter", .obj [("nd_factor", .num 2)])] = .ofRat 1 ∧
    NdFactor.ofRat 2 ≠ NdFactor.ofRat 1 := by
  refine ⟨by decide, by decide, by decide, ?_, by norm_num, by decide, by decide, by decide⟩
  show NdFactor.val? (.ofDensity 2) = some (1 / 100)
  simp only [NdFactor.val?]
  norm_num

theorem specFirstPositive_eq (fields : List (String × JVal)) :
    ∀ keys, specFirstPositive fields keys = firstPositiveFactor fields keys := by
  intro keys
  induction keys with
  | nil => rfl
  | cons k ks ih =>
    simp only [specFirstPositive, firstPositiveFactor]
    cases fields.lookup k with
    | none => exact ih
    | some v =>
      dsimp only
      cases v.pyFloat? with
      | none => exact ih
      | some q =>
        dsimp only
        by_cases h : 0 < q
        · simp [h]
        · simp [h, ih]

theorem specFirstDensity_eq (fields : List (String × JVal)) :
    ∀ keys, specFirstDensity fields keys = firstDensity fields keys := by
  intro keys
  induction keys with
  | nil => rfl
  | cons k ks ih =>
    simp only [specFirstDensity, firstDensity]
    cases fields.lookup k with
    | none => exact ih
    | some v =>
      dsimp only
      cases v.pyFloat? with
      | none => exact ih
      | some q => rfl

theorem firstDensity_singleton (fields : List (String × JVal)) (k : String) :
    firstDensity fields [k] = (fields.lookup k).bind JVal.pyFloat? := by
  simp only [firstDensity]
  cases hk : fields.lookup k with
  | none => rfl
  | some v =>
    dsimp only
    cases hd : v.pyFloat? with
    | none => simp [hd]
    | some d => simp [hd]

/-- **C3** (corrected).  For every metadata mapping the code follows the
claim's priority with two key-set corrections: the nested `nd_filter` factor
probe is over `factor`/`nd_factor`/`attenuation`/`transmission`, and the
final optical-density fallback probes only the top-level `nd_density` key;
non-numeric and non-positive candidates are skipped at every step and empty
metadata yields `1.0`. -/
theorem claim_C3_amended (metadata : List (String × JVal)) :
    nd_normalisation_factor metadata = ndFactorAmended metadata := by
  cases he : metadata.isEmpty with
  | true =>
    have : metadata = [] := by
      cases metadata with
      | nil => rfl
      | cons a l => simp [List.isEmpty] at he
    subst this
    rfl
  | false =>
    simp only [nd_normalisation_factor, ndFactorAmended, he, Bool.false_eq_true, if_false,
      specFirstPositive_eq, specFirstDensity_eq, firstDensity_singleton]

/-! ## The fitting engine (`photo_response.py`: `analyze_photo_response`, `_linear_fit`)

`analyze_photo_response` groups the measurement set by `roi_name` and runs,
for each group, the per-ROI block of lines 373–419; `fitForRoi` embeds that
block. -/

/-- `RoiFitResult` dataclass. -/
structure RoiFitResult where
  roi_name : String
  slope : Option ℚ
  intercept : Option ℚ
  used_points : Nat
  total_points : Nat
  saturated_points : Nat
deriving DecidableEq

/-- `np.mean` of a list. -/
def mean (l : List ℚ) : ℚ := l.sum / l.length

/-- `_linear_fit(exposures, values)`: `np.linalg.lstsq` on the 2-column
design matrix `[x 1]` returns the (for ≥ 2 distinct exposures unique)
least-squares solution; embedded in closed normal-equation (Cramer) form. -/
def linear_fit (exposures values : List ℚ) : ℚ × ℚ :=
  let n : ℚ := exposures.length
  let sx := exposures.sum
  let sy := values.sum
  let sxx := (exposures.map (fun x => x * x)).sum
  let sxy := ((exposures.zip values).map (fun p => p.1 * p.2)).sum
  let d := n * sxx - sx * sx
  ((n * sxy - sx * sy) / d, (sxx * sy - sx * sxy) / d)

/-- `exposure_map.setdefault(exposure, []).append(dn)` on an insertion-ordered
dict. -/
def addExposure (m : List (Int × List ℚ)) (k : Int) (v : ℚ) : List (Int × List ℚ) :=
  match m with
  | [] => [(k, [v])]
  | (k', vs) :: rest =>
    if k' = k then (k', vs ++ [v]) :: rest else (k', vs) :: addExposure rest k v

/-- The `exposure_map` accumulation loop over a ROI group (saturated entries
skipped). -/
def exposureMap (entries : List PhotoResponseMeasurement) : List (Int × List ℚ) :=
  entries.foldl
    (fun m e => if e.saturated then m else addExposure m e.exposure_us e.normalised_dn) []

/-- Lines 373–419 of `analyze_photo_response` for one ROI group. -/
def fitForRoi (roi_name : String) (entries : List PhotoResponseMeasurement) : RoiFitResult :=
  let total_points := entries.length
  let saturated_points := (entries.filter (fun e => e.saturated)).length
  let m := exposureMap entries
  if m.isEmpty then
    { roi_name := roi_name, slope := none, intercept := none, used_points := 0,
      total_points := total_points, saturated_points := saturated_points }
  else
    let exposures := (m.map Prod.fst).mergeSort (fun a b => decide (a ≤ b))
    let averaged := exposures.map (fun e => mean ((m.lookup e).getD []))
    if 2 ≤ exposures.length then
      let fit := linear_fit (exposures.map (fun e => Int.cast e)) averaged
      { roi_name := roi_name, slope := some fit.1, intercept := some fit.2,
        used_points := exposures.length, total_points := total_points,
        saturated_points := saturated_points }
    else
      { roi_name := roi_name, slope := none, intercept := none,
        used_points := exposures.length, total_points := total_points,
        saturated_points := saturated_points }

/-! ### Claim C2: spec-side notions -/

/-- The normalised values of the unsaturated entries at exposure `x`, in
group order. -/
def groupVals (entries : List PhotoResponseMeasurement) (x : Int) : List ℚ :=
  (entries.filter (fun e => !e.saturated && decide (e.exposure_us = x))).map
    (fun e => e.normalised_dn)

/-- The claim's per-exposure arithmetic mean across frames. -/
def groupMean (entries : List PhotoResponseMeasurement) (x : Int) : ℚ :=
  mean (groupVals entries x)

/-- The distinct exposures appearing among unsaturated entries. -/
def distinctExposures (entries : List PhotoResponseMeasurement) : List Int :=
  ((entries.filter (fun e => !e.saturated)).map (fun e => e.exposure_us)).dedup

/-- Ordinary least-squares slope of `ys` against `xs` (normal-equation form). -/
def olsSlope (xs ys : List ℚ) : ℚ :=
  ((xs.length : ℚ) * ((xs.zip ys).map (fun p => p.1 * p.2)).sum - xs.sum * ys.sum) /
    ((xs.length : ℚ) * (xs.map (fun x => x * x)).sum - xs.sum * xs.sum)

/-- Ordinary least-squares intercept of `ys` against `xs`. -/
def olsIntercept (xs ys : List ℚ) : ℚ :=
  ((xs.map (fun x => x * x)).sum * ys.sum - xs.sum * ((xs.zip ys).map (fun p => p.1 * p.2)).sum) /
    ((xs.length : ℚ) * (xs.map (fun x => x * x)).sum - xs.sum * xs.sum)

theorem linear_fit_eq_ols (xs ys : List ℚ) :
    linear_fit xs ys = (olsSlope xs ys, olsIntercept xs ys) := rfl

/-! ### The closed form satisfies the normal equations -/

theorem zip_sum_resid (s c : ℚ) :
    ∀ (xs ys : List ℚ), ys.length = xs.length →
      ((xs.zip ys).map (fun p => p.2 - (s * p.1 + c))).sum =
        ys.sum - s * xs.sum - c * xs.length := by
  intro xs
  induction xs with
  | nil =>
    intro ys hlen
    have : ys = [] := List.eq_nil_of_length_eq_zero (by simpa using hlen)
    subst this; simp
  | cons x xs ih =>
    intro ys hlen
    match ys with
    | [] => simp at hlen
    | y :: ys =>
      simp only [List.zip_cons_cons, List.map_cons, List.sum_cons, List.sum_cons,
        List.length_cons]
      rw [ih ys (by simpa using hlen)]
      push_cast
      ring

theorem zip_sum_resid_x (s c : ℚ) :
    ∀ (xs ys : List ℚ), ys.length = xs.length →
      ((xs.zip ys).map (fun p => p.1 * (p.2 - (s * p.1 + c)))).sum =
        ((xs.zip ys).map (fun p => p.1 * p.2)).sum - s * (xs.map (fun x => x * x)).sum
          - c * xs.sum := by
  intro xs
  induction xs with
  | nil =>
    intro ys hlen
    have : ys = [] := List.eq_nil_of_length_eq_zero (by simpa using hlen)
    subst this; simp
  | cons x xs ih =>
    intro ys hlen
    match ys with
    | [] => simp at hlen
    | y :: ys =>
      simp only [List.zip_cons_cons, List.map_cons, List.sum_cons]
      rw [ih ys (by simpa using hlen)]
      ring

/-- The closed-form coefficients satisfy the two OLS normal equations: the
residuals sum to zero and are orthogonal to the exposures. -/
theorem ols_normal_equations (xs ys : List ℚ) (hlen : ys.length = xs.length)
    (hD : (xs.length : ℚ) * (xs.map (fun x => x * x)).sum - xs.sum * xs.sum ≠ 0) :
    ((xs.zip ys).map (fun p => p.2 - (olsSlope xs ys * p.1 + olsIntercept xs ys))).sum = 0 ∧
    ((xs.zip ys).map (fun p =>
      p.1 * (p.2 - (olsSlope xs ys * p.1 + olsIntercept xs ys)))).sum = 0 := by
  constructor
  · rw [zip_sum_resid _ _ xs ys hlen]
    unfold olsSlope olsIntercept
    field_simp
    ring
  · rw [zip_sum_resid_x _ _ xs ys hlen]
    unfold olsSlope olsIntercept
    field_simp
    ring

/-! ### Positivity of the OLS denominator for ≥ 2 distinct points -/

theorem sq_sum_expand (x : ℚ) (xs : List ℚ) :
    (xs.map (fun y => (x - y) * (x - y))).sum =
      (xs.length : ℚ) * (x * x) - 2 * x * xs.sum + (xs.map (fun y => y * y)).sum := by
  induction xs with
  | nil => simp
  | cons a l ih =>
    simp only [List.map_cons, List.sum_cons, List.length_cons]
    rw [ih]
    push_cast
    ring

theorem lagrange_step (x : ℚ) (xs : List ℚ) :
    ((x :: xs).length : ℚ) * (((x :: xs).map (fun y => y * y)).sum)
        - (x :: xs).sum * (x :: xs).sum =
      ((xs.length : ℚ) * ((xs.map (fun y => y * y)).sum) - xs.sum * xs.sum)
        + (xs.map (fun y => (x - y) * (x - y))).sum := by
  rw [sq_sum_expand]
  simp only [List.map_cons, List.sum_cons, List.length_cons]
  push_cast
  ring

theorem olsDenom_nonneg :
    ∀ xs : List ℚ, 0 ≤ (xs.length : ℚ) * ((xs.map (fun y => y * y)).sum) - xs.sum * xs.sum := by
  intro xs
  induction xs with
  | nil => simp
  | cons x l ih =>
    rw [lagrange_step]
    have h2 : 0 ≤ (l.map (fun y => (x - y) * (x - y))).sum :=
      List.sum_nonneg (by
        intro a ha
        rw [List.mem_map] at ha
        obtain ⟨y, _, rfl⟩ := ha
        exact mul_self_nonneg _)
    linarith

theorem olsDenom_pos (a b : ℚ) (xs : List ℚ) (hab : a ≠ b) :
    0 < ((a :: b :: xs).length : ℚ) * (((a :: b :: xs).map (fun y => y * y)).sum)
        - (a :: b :: xs).sum * (a :: b :: xs).sum := by
  rw [lagrange_step]
  have h1 := olsDenom_nonneg (b :: xs)
  have h2 : 0 < ((b :: xs).map (fun y => (a - y) * (a - y))).sum := by
    simp only [List.map_cons, List.sum_cons]
    have hpos : 0 < (a - b) * (a - b) := by
      have : a - b ≠ 0 := sub_ne_zero_of_ne hab
      rcases lt_or_gt_of_ne this with h | h
      · exact mul_pos_of_neg_of_neg h h
      · exact mul_pos h h
    have hrest : 0 ≤ (xs.map (fun y => (a - y) * (a - y))).sum :=
      List.sum_nonneg (by
        intro c hc
        rw [List.mem_map] at hc
        obtain ⟨y, _, rfl⟩ := hc
        exact mul_self_nonneg _)
    linarith
  linarith

/-! ### Grouping lemmas: the `exposure_map` dict vs the claim's groups -/

theorem addExposure_lookup (k : Int) (v : ℚ) :
    ∀ (m : List (Int × List ℚ)) (x : Int),
      (addExposure m k v).lookup x =
        if x = k then some (((m.lookup k).getD []) ++ [v]) else m.lookup x := by
  intro m
  induction m with
  | nil =>
    intro x
    by_cases h : x = k
    · simp [addExposure, List.lookup, h]
    · simp [addExposure, List.lookup, beq_eq_false_iff_ne.mpr h, h]
  | cons hd rest ih =>
    intro x
    obtain ⟨k', vs⟩ := hd
    by_cases hk : k' = k
    · subst hk
      by_cases hx : x = k'
      · simp [addExposure, List.lookup, hx]
      · simp [addExposure, List.lookup, beq_eq_false_iff_ne.mpr hx, hx]
    · simp only [addExposure, if_neg hk]
      by_cases hx : x = k'
      · subst hx
        have hxk : ¬ x = k := hk
        simp [List.lookup, hxk]
      · have hbx : (x == k') = false := by simp [hx]
        have hbk : (k == k') = false := by simp [Ne.symm hk]
        simp only [List.lookup, hbx]
        rw [ih x]
        by_cases hxk : x = k
        · simp [hxk, List.lookup, hbk]
        · simp [hxk]

theorem addExposure_keys (k : Int) (v : ℚ) :
    ∀ (m : List (Int × List ℚ)),
      (addExposure m k v).map Prod.fst =
        if k ∈ m.map Prod.fst then m.map Prod.fst else m.map Prod.fst ++ [k] := by
  intro m
  induction m with
  | nil => simp [addExposure]
  | cons hd rest ih =>
    obtain ⟨k', vs⟩ := hd
    by_cases hk : k' = k
    · subst hk
      simp [addExposure]
    · simp only [addExposure, if_neg hk, List.map_cons, ih]
      have : (k ∈ k' :: rest.map Prod.fst) ↔ (k ∈ rest.map Prod.fst) := by
        simp [Ne.symm hk]
      by_cases hmem : k ∈ rest.map Prod.fst
      · simp [hmem, this]
      · simp [hmem, this]

theorem addExposure_keys_nodup (k : Int) (v : ℚ) (m : List (Int × List ℚ))
    (h : (m.map Prod.fst).Nodup) : ((addExposure m k v).map Prod.fst).Nodup := by
  rw [addExposure_keys]
  by_cases hmem : k ∈ m.map Prod.fst
  · simp [hmem, h]
  · simp only [hmem, if_false]
    exact h.append (List.nodup_singleton k) (by
      intro a ha hb
      rw [List.mem_singleton] at hb
      subst hb
      exact hmem ha)

theorem lookup_isSome_iff :
    ∀ (m : List (Int × List ℚ)) (x : Int), (m.lookup x).isSome ↔ x ∈ m.map Prod.fst := by
  intro m
  induction m with
  | nil => intro x; simp [List.lookup]
  | cons hd rest ih =>
    intro x
    obtain ⟨k', vs⟩ := hd
    by_cases hx : x = k'
    · simp [List.lookup, hx]
    · simp [List.lookup, beq_eq_false_iff_ne.mpr hx, hx, ih]

theorem foldl_exposure_lookup :
    ∀ (entries : List PhotoResponseMeasurement) (m : List (Int × List ℚ)) (x : Int),
      ((entries.foldl (fun m e => if e.saturated then m
          else addExposure m e.exposure_us e.normalised_dn) m).lookup x) =
        if m.lookup x = none ∧ groupVals entries x = [] then none
        else some (((m.lookup x).getD []) ++ groupVals entries x) := by
  intro entries
  induction entries with
  | nil =>
    intro m x
    have hg : groupVals [] x = [] := rfl
    rw [List.foldl_nil, hg]
    cases h : m.lookup x with
    | none => simp
    | some vs => simp
  | cons e rest ih =>
    intro m x
    rw [List.foldl_cons]
    by_cases hs : e.saturated = true
    · rw [if_pos hs]
      have hg : groupVals (e :: rest) x = groupVals rest x := by
        simp [groupVals, List.filter_cons, hs]
      rw [hg]
      exact ih m x
    · rw [if_neg hs]
      have hsb : e.saturated = false := by
        cases h : e.saturated
        · rfl
        · exact absurd h hs
      rw [ih (addExposure m e.exposure_us e.normalised_dn) x]
      rw [addExposure_lookup e.exposure_us e.normalised_dn m x]
      by_cases hx : e.exposure_us = x
      · subst hx
        have hg : groupVals (e :: rest) e.exposure_us =
            e.normalised_dn :: groupVals rest e.exposure_us := by
          simp [groupVals, List.filter_cons, hsb]
        rw [hg, if_pos rfl]
        simp
      · have hg : groupVals (e :: rest) x = groupVals rest x := by
          simp [groupVals, List.filter_cons, hsb, hx]
        have hxk : ¬ x = e.exposure_us := fun h => hx h.symm
        rw [hg, if_neg hxk]

theorem exposureMap_lookup (entries : List PhotoResponseMeasurement) (x : Int) :
    (exposureMap entries).lookup x =
      if groupVals entries x = [] then none else some (groupVals entries x) := by
  have h := foldl_exposure_lookup entries [] x
  rw [exposureMap]
  rw [h]
  have hnil : (([] : List (Int × List ℚ)).lookup x) = none := rfl
  rw [hnil]
  by_cases hg : groupVals entries x = [] <;> simp [hg]

theorem foldl_exposure_keys_nodup :
    ∀ (entries : List PhotoResponseMeasurement) (m : List (Int × List ℚ)),
      (m.map Prod.fst).Nodup →
      (((entries.foldl (fun m e => if e.saturated then m
          else addExposure m e.exposure_us e.normalised_dn) m)).map Prod.fst).Nodup := by
  intro entries
  induction entries with
  | nil => intro m h; exact h
  | cons e rest ih =>
    intro m h
    rw [List.foldl_cons]
    by_cases hs : e.saturated = true
    · rw [if_pos hs]; exact ih m h
    · rw [if_neg hs]
      exact ih _ (addExposure_keys_nodup _ _ m h)

theorem exposureMap_keys_nodup (entries : List PhotoResponseMeasurement) :
    ((exposureMap entries).map Prod.fst).Nodup :=
  foldl_exposure_keys_nodup entries [] (by simp)

theorem groupVals_ne_nil_iff (entries : List PhotoResponseMeasurement) (x : Int) :
    groupVals entries x ≠ [] ↔
      x ∈ (entries.filter (fun e => !e.saturated)).map (fun e => e.exposure_us) := by
  rw [groupVals, Ne, List.map_eq_nil_iff, List.filter_eq_nil_iff]
  push_neg
  constructor
  · rintro ⟨e, he, hp⟩
    rw [List.mem_map]
    simp only [Bool.and_eq_true, decide_eq_true_eq] at hp
    exact ⟨e, List.mem_filter.mpr ⟨he, hp.1⟩, hp.2⟩
  · intro hmem
    rw [List.mem_map] at hmem
    obtain ⟨e, he, hx⟩ := hmem
    obtain ⟨he1, he2⟩ := List.mem_filter.mp he
    exact ⟨e, he1, by simp [he2, hx]⟩

theorem exposureMap_mem_keys (entries : List PhotoResponseMeasurement) (x : Int) :
    x ∈ (exposureMap entries).map Prod.fst ↔ x ∈ distinctExposures entries := by
  rw [← lookup_isSome_iff, exposureMap_lookup, distinctExposures, List.mem_dedup,
    ← groupVals_ne_nil_iff]
  by_cases hg : groupVals entries x = [] <;> simp [hg]

theorem exposureMap_keys_perm (entries : List PhotoResponseMeasurement) :
    ((exposureMap entries).map Prod.fst).Perm (distinctExposures entries) :=
  (List.perm_ext_iff_of_nodup (exposureMap_keys_nodup entries)
    (List.nodup_dedup _)).mpr (fun a => exposureMap_mem_keys entries a)

theorem intLe_trans : ∀ a b c : Int,
    (decide (a ≤ b)) → (decide (b ≤ c)) → (decide (a ≤ c)) := by
  intro a b c hab hbc
  simp only [decide_eq_true_eq] at *
  omega

theorem intLe_total : ∀ a b : Int, (decide (a ≤ b)) || (decide (b ≤ a)) := by
  intro a b
  simp only [Bool.or_eq_true, decide_eq_true_eq]
  omega

theorem exposureMap_keys_sort_eq (entries : List PhotoResponseMeasurement) :
    (((exposureMap entries).map Prod.fst).mergeSort (fun a b => decide (a ≤ b))) =
      ((distinctExposures entries).mergeSort (fun a b => decide (a ≤ b))) := by
  apply @List.eq_of_perm_of_sorted Int (fun a b : Int => a ≤ b) ⟨fun a b => le_antisymm⟩
  · exact ((List.mergeSort_perm _ _).trans (exposureMap_keys_perm entries)).trans
      (List.mergeSort_perm _ _).symm
  · exact (List.sorted_mergeSort intLe_trans intLe_total _).imp (fun h => of_decide_eq_true h)
  · exact (List.sorted_mergeSort intLe_trans intLe_total _).imp (fun h => of_decide_eq_true h)

/-- The distinct unsaturated exposures in ascending order (the fit's
x-values, before float conversion). -/
def sortedExposures (entries : List PhotoResponseMeasurement) : List Int :=
  (distinctExposures entries).mergeSort (fun a b => decide (a ≤ b))

/-- The fit's x-values. -/
def fitXs (entries : List PhotoResponseMeasurement) : List ℚ :=
  (sortedExposures entries).map (fun e => Int.cast e)

/-- The fit's y-values: the per-exposure-group means of `normalised_dn`. -/
def fitYs (entries : List PhotoResponseMeasurement) : List ℚ :=
  (sortedExposures entries).map (groupMean entries)

/-- **C2** (confirmed).  For every ROI group: `used_points` equals the number
of distinct exposures among unsaturated measurements; with fewer than 2
distinct exposure groups the fit has no slope and no intercept; with at
least 2 groups the fit's slope and intercept are the ordinary least-squares
solution over the averaged group points (the per-exposure means of
`normalised_dn`), witnessed both by the closed form and by the two OLS
normal equations holding for the reported coefficients. -/
theorem claim_C2 (roi_name : String) (entries : List PhotoResponseMeasurement) :
    (fitForRoi roi_name entries).used_points = (distinctExposures entries).length ∧
    ((distinctExposures entries).length < 2 →
      (fitForRoi roi_name entries).slope = none ∧
      (fitForRoi roi_name entries).intercept = none) ∧
    (2 ≤ (distinctExposures entries).length →
      (fitForRoi roi_name entries).slope =
        some (olsSlope (fitXs entries) (fitYs entries)) ∧
      (fitForRoi roi_name entries).intercept =
        some (olsIntercept (fitXs entries) (fitYs entries)) ∧
      (((fitXs entries).zip (fitYs entries)).map (fun p =>
        p.2 - (olsSlope (fitXs entries) (fitYs entries) * p.1
          + olsIntercept (fitXs entries) (fitYs entries)))).sum = 0 ∧
      (((fitXs entries).zip (fitYs entries)).map (fun p =>
        p.1 * (p.2 - (olsSlope (fitXs entries) (fitYs entries) * p.1
          + olsIntercept (fitXs entries) (fitYs entries))))).sum = 0) := by
  by_cases hemp : (exposureMap entries).isEmpty = true
  · have hm : exposureMap entries = [] := by
      cases h : exposureMap entries with
      | nil => rfl
      | cons a l => rw [h] at hemp; simp [List.isEmpty] at hemp
    have hd : distinctExposures entries = [] := by
      have hp := exposureMap_keys_perm entries
      rw [hm] at hp
      exact (List.Perm.eq_nil hp.symm)
    have hfit : fitForRoi roi_name entries =
        { roi_name := roi_name, slope := none, intercept := none, used_points := 0,
          total_points := entries.length,
          saturated_points := (entries.filter (fun e => e.saturated)).length } := by
      simp only [fitForRoi]
      rw [if_pos hemp]
    rw [hfit]
    refine ⟨by simp [hd], fun _ => ⟨rfl, rfl⟩, fun habs => ?_⟩
    rw [hd] at habs
    simp at habs
  · have hsort := exposureMap_keys_sort_eq entries
    have hSlen : ((distinctExposures entries).mergeSort (fun a b => decide (a ≤ b))).length
        = (distinctExposures entries).length := (List.mergeSort_perm _ _).length_eq
    have hys : ((distinctExposures entries).mergeSort (fun a b => decide (a ≤ b))).map
        (fun e => mean (((exposureMap entries).lookup e).getD [])) = fitYs entries := by
      rw [fitYs, sortedExposures]
      apply List.map_congr_left
      intro e he
      rw [List.mem_mergeSort] at he
      have hne : groupVals entries e ≠ [] := by
        rw [groupVals_ne_nil_iff]
        rw [distinctExposures, List.mem_dedup] at he
        exact he
      rw [exposureMap_lookup, if_neg hne]
      rfl
    by_cases h2 : 2 ≤ (distinctExposures entries).length
    · have hfit : fitForRoi roi_name entries =
          { roi_name := roi_name,
            slope := some (olsSlope (fitXs entries) (fitYs entries)),
            intercept := some (olsIntercept (fitXs entries) (fitYs entries)),
            used_points := (distinctExposures entries).length,
            total_points := entries.length,
            saturated_points := (entries.filter (fun e => e.saturated)).length } := by
        simp only [fitForRoi]
        rw [if_neg hemp, hsort, hys]
        rw [if_pos (by rw [hSlen]; exact h2)]
        simp [linear_fit_eq_ols, fitXs, sortedExposures, hSlen]
      rw [hfit]
      refine ⟨rfl, fun hcon => absurd hcon (by omega), fun _ => ⟨rfl, rfl, ?_, ?_⟩⟩
      all_goals {
        have hlenxy : (fitYs entries).length = (fitXs entries).length := by
          rw [fitXs, fitYs, List.length_map, List.length_map]
        have hSnodup : (sortedExposures entries).Nodup := by
          rw [sortedExposures]
          exact ((List.mergeSort_perm _ _).nodup_iff).mpr (List.nodup_dedup _)
        have hnodup : (fitXs entries).Nodup := by
          rw [fitXs]
          apply List.Nodup.map
          · intro a b h
            exact Int.cast_injective h
          · exact hSnodup
        have hlen2 : 2 ≤ (fitXs entries).length := by
          rw [fitXs, List.length_map, sortedExposures, hSlen]
          exact h2
        obtain ⟨a, b, t, hxs⟩ : ∃ a b t, fitXs entries = a :: b :: t := by
          cases hx : fitXs entries with
          | nil => rw [hx] at hlen2; simp at hlen2
          | cons a tl =>
            cases htl : tl with
            | nil => rw [hx, htl] at hlen2; simp at hlen2
            | cons b t => exact ⟨a, b, t, rfl⟩
        have hab : a ≠ b := by
          intro hE
          rw [hxs] at hnodup
          exact (List.nodup_cons.mp hnodup).1 (hE ▸ List.mem_cons_self b t)
        have hD : ((fitXs entries).length : ℚ) * ((fitXs entries).map (fun x => x * x)).sum
            - (fitXs entries).sum * (fitXs entries).sum ≠ 0 := by
          rw [hxs]
          exact ne_of_gt (olsDenom_pos a b t hab)
        first
        | exact (ols_normal_equations (fitXs entries) (fitYs entries) hlenxy hD).1
        | exact (ols_normal_equations (fitXs entries) (fitYs entries) hlenxy hD).2
      }
    · have hfit : fitForRoi roi_name entries =
          { roi_name := roi_name, slope := none, intercept := none,
            used_points := (distinctExposures entries).length,
            total_points := entries.length,
            saturated_points := (entries.filter (fun e => e.saturated)).length } := by
        simp only [fitForRoi]
        rw [if_neg hemp, hsort, hys]
        rw [if_neg (by rw [hSlen]; exact h2)]
        simp [hSlen]
      rw [hfit]
      exact ⟨rfl, fun _ => ⟨rfl, rfl⟩, fun hcon => absurd hcon h2⟩

/-- A concrete two-exposure unsaturated group for the C2 witness. -/
def fitEntriesW : List PhotoResponseMeasurement :=
  [⟨"i", "s", 1000, 1, "r", 100, 100, false, 1, "f1"⟩,
   ⟨"i", "s", 2000, 1, "r", 200, 200, false, 1, "f2"⟩]

/-- Witness for C2: with two distinct exposures the reported slope is the
OLS slope of the averaged group points. -/
theorem claim_C2_witness :
    (fitForRoi "r" fitEntriesW).slope =
      some (olsSlope (fitXs fitEntriesW) (fitYs fitEntriesW)) :=
  ((claim_C2 "r" fitEntriesW).2.2 (by decide)).1

end FlareTest
